import Mathlib

/-!
Verification of the identity-matching engine of the face_detect server.

The embedding follows the Express handlers in the server source:
* `registerFace` models `app.post('/api/register-face')`,
* `recognizeFace` models `app.post('/api/recognize-face')`,
* `euclideanDistance` models the `euclideanDistance(d1, d2)` helper.

JavaScript numbers are modelled by `JsNum`: an exact real, `NaN`,
`Infinity` or `-Infinity` (rounding of IEEE doubles is idealised away;
`undefined` entering arithmetic behaves exactly like `NaN` and is
modelled as such).  The mutable module-level array `faceDB` is modelled
by explicit state passing: each handler takes the store and returns the
(possibly updated) store together with the JSON response it sends.
-/

namespace FaceDetect

/-- The embedding dimensionality of the face-api.js recognition model
(128 floats per descriptor); the spec's system-wide constant `D`. -/
def D : ℕ := 128

/-- The hard-coded acceptance threshold `0.6` appearing in the scan
condition `distance < 0.6` and in the confidence formula
`1 - (bestMatch.distance / 0.6)` of the recognize handler. -/
noncomputable def threshold : ℝ := 0.6

/-- A JavaScript number: an exact real value, `NaN`, `Infinity`, or
`-Infinity`. -/
inductive JsNum where
  | num : ℝ → JsNum
  | nan : JsNum
  | inf : JsNum
  | negInf : JsNum

namespace JsNum

/-- The `<` comparison of JavaScript numbers: any comparison with `NaN`
is false. -/
def lt : JsNum → JsNum → Prop
  | num a, num b => a < b
  | num _, inf => True
  | negInf, num _ => True
  | negInf, inf => True
  | _, _ => False

/-- JavaScript `+` on numbers. -/
def add : JsNum → JsNum → JsNum
  | nan, _ => nan
  | _, nan => nan
  | num a, num b => num (a + b)
  | inf, negInf => nan
  | negInf, inf => nan
  | inf, _ => inf
  | _, inf => inf
  | negInf, _ => negInf
  | _, negInf => negInf

/-- JavaScript `-` on numbers. -/
def sub : JsNum → JsNum → JsNum
  | nan, _ => nan
  | _, nan => nan
  | num a, num b => num (a - b)
  | inf, inf => nan
  | negInf, negInf => nan
  | inf, _ => inf
  | _, inf => negInf
  | negInf, _ => negInf
  | _, negInf => inf

/-- JavaScript `Math.pow(x, 2)`. -/
def pow2 : JsNum → JsNum
  | num a => num (a ^ 2)
  | nan => nan
  | inf => inf
  | negInf => inf

/-- JavaScript `Math.sqrt`: `NaN` on negative inputs (and on `NaN` and
`-Infinity`). -/
noncomputable def sqrt : JsNum → JsNum
  | num a => if 0 ≤ a then num (Real.sqrt a) else nan
  | nan => nan
  | inf => inf
  | negInf => nan

/-- JavaScript `/` on numbers.  In this development the divisor is
always the nonzero constant `threshold`, so only the `num _ / num b`
branch with `b ≠ 0` is ever reached. -/
noncomputable def div : JsNum → JsNum → JsNum
  | nan, _ => nan
  | _, nan => nan
  | num a, num b =>
      if b = 0 then (if a = 0 then nan else if 0 < a then inf else negInf)
      else num (a / b)
  | inf, num b => if b < 0 then negInf else inf
  | negInf, num b => if b < 0 then inf else negInf
  | num _, inf => num 0
  | num _, negInf => num 0
  | inf, _ => nan
  | negInf, _ => nan

end JsNum

/-- JavaScript array indexing `l[i]` as it enters arithmetic: an
out-of-bounds read yields `undefined`, which behaves as `NaN` in every
arithmetic operation of the distance loop. -/
def jsGet (l : List ℝ) (i : ℕ) : JsNum :=
  match l.get? i with
  | some x => JsNum.num x
  | none => JsNum.nan

/-- The server's `euclideanDistance(d1, d2)`: a loop
`for (let i = 0; i < d1.length; i++) sum += Math.pow(d1[i] - d2[i], 2)`
followed by `Math.sqrt(sum)`.  The loop bound is the length of the
FIRST argument. -/
noncomputable def euclideanDistance (d1 d2 : List ℝ) : JsNum :=
  JsNum.sqrt ((List.range d1.length).foldl
    (fun sum i => JsNum.add sum (JsNum.pow2 (JsNum.sub (jsGet d1 i) (jsGet d2 i))))
    (JsNum.num 0))

/-- One entry of the in-memory `faceDB` array: `{ name, descriptor }`. -/
structure FaceEntry where
  name : String
  descriptor : List ℝ

/-- The module-level mutable array `faceDB`, in insertion order. -/
abbrev FaceDB := List FaceEntry

/-- Outcome of the register handler: HTTP 400 (`InvalidInput`),
HTTP 409 (`DuplicateIdentity`), or success carrying the reported
`count`. -/
inductive RegisterResult where
  | invalidInput : RegisterResult
  | duplicateIdentity : RegisterResult
  | ok : ℕ → RegisterResult
deriving DecidableEq

/-- The `/api/register-face` handler.  `none` models an absent field of
`req.body`; for a present string `name`, JavaScript's `!name` is true
exactly for the empty string.  The duplicate check is
`faceDB.some(entry => entry.name === name)` (case-sensitive), and on
success the handler pushes `{ name, descriptor }` and reports the new
`faceDB.length`. -/
def registerFace (db : FaceDB) (name : Option String) (descriptor : Option (List ℝ)) :
    FaceDB × RegisterResult :=
  match name, descriptor with
  | some n, some d =>
    if n = "" then (db, RegisterResult.invalidInput)
    else if db.any fun e => e.name == n then (db, RegisterResult.duplicateIdentity)
    else
      (db ++ [FaceEntry.mk n d], RegisterResult.ok (db ++ [FaceEntry.mk n d]).length)
  | _, _ => (db, RegisterResult.invalidInput)

open Classical

/-- The handler's running `bestMatch = { name, distance }`,
initialised to `{ name: null, distance: Infinity }`. -/
structure BestMatch where
  name : Option String
  distance : JsNum

/-- Outcome of the recognize handler: HTTP 400 (`InvalidInput`),
`{ recognized: true, name, confidence }`, or
`{ recognized: false }`. -/
inductive RecognizeResult where
  | invalidInput : RecognizeResult
  | recognized : String → JsNum → RecognizeResult
  | noMatch : RecognizeResult

/-- The body of the `faceDB.forEach` scan: update `bestMatch` when
`distance < 0.6 && distance < bestMatch.distance`. -/
noncomputable def scanStep (descriptor : List ℝ) (best : BestMatch) (person : FaceEntry) :
    BestMatch :=
  if JsNum.lt (euclideanDistance descriptor person.descriptor) (JsNum.num threshold) ∧
     JsNum.lt (euclideanDistance descriptor person.descriptor) best.distance then
    ⟨some person.name, euclideanDistance descriptor person.descriptor⟩
  else best

/-- The full `faceDB.forEach(person => ...)` scan. -/
noncomputable def recognizeScan (db : FaceDB) (descriptor : List ℝ) : BestMatch :=
  db.foldl (scanStep descriptor) ⟨none, JsNum.inf⟩

/-- The reported confidence `1 - (bestMatch.distance / 0.6)`. -/
noncomputable def jsConfidence (d : JsNum) : JsNum :=
  JsNum.sub (JsNum.num 1) (JsNum.div d (JsNum.num threshold))

/-- The `/api/recognize-face` handler.  `none` models a request body
whose `descriptor` is absent (or not an array); the handler never
assigns to `faceDB`, so the store component of the result is the input
store. -/
noncomputable def recognizeFace (db : FaceDB) (descriptor : Option (List ℝ)) :
    FaceDB × RecognizeResult :=
  match descriptor with
  | none => (db, RecognizeResult.invalidInput)
  | some d =>
    match recognizeScan db d with
    | ⟨some n, dist⟩ => (db, RecognizeResult.recognized n (jsConfidence dist))
    | ⟨none, _⟩ => (db, RecognizeResult.noMatch)

/-- The store produced by a sequence of register calls starting from
the empty store. -/
def runRegister (calls : List (Option String × Option (List ℝ))) : FaceDB :=
  calls.foldl (fun db c => (registerFace db c.1 c.2).1) []

/-- Modelled from the spec: the Euclidean distance
`sqrt(Σ_i (q_i - r_i)^2)` over all `D` dimensions, for comparison with
the code's `euclideanDistance`. -/
noncomputable def specEuclideanDistance (q r : List ℝ) : ℝ :=
  Real.sqrt (∑ i in Finset.range D, (q.getD i 0 - r.getD i 0) ^ 2)

/-- The real-valued Euclidean distance over the first `q.length`
coordinates; equals the code's distance whenever the stored vector is
at least as long as the query. -/
noncomputable def realEuclid (q r : List ℝ) : ℝ :=
  Real.sqrt (∑ i in Finset.range q.length, (q.getD i 0 - r.getD i 0) ^ 2)

/-- The minimum Euclidean distance from the query to the records of the
store (`none` for the empty store). -/
noncomputable def minDist (db : FaceDB) (q : List ℝ) : Option ℝ :=
  match db.map (fun e => realEuclid q e.descriptor) with
  | [] => none
  | x :: xs => some (xs.foldl min x)

/-! ### Basic lemmas about the JavaScript number model -/

theorem jsLt_num_num {a b : ℝ} : JsNum.lt (JsNum.num a) (JsNum.num b) ↔ a < b :=
  Iff.rfl

theorem jsLt_num_inf {a : ℝ} : JsNum.lt (JsNum.num a) JsNum.inf :=
  trivial

theorem jsLt_nan_left {x : JsNum} : ¬ JsNum.lt JsNum.nan x := by
  cases x <;> simp [JsNum.lt]

theorem jsLt_nan_right {x : JsNum} : ¬ JsNum.lt x JsNum.nan := by
  cases x <;> simp [JsNum.lt]

theorem jsLt_num_of_lt {x : JsNum} {b : ℝ}
    (hs : (∃ a, x = JsNum.num a) ∨ x = JsNum.nan)
    (h : JsNum.lt x (JsNum.num b)) : ∃ a, x = JsNum.num a ∧ a < b := by
  rcases hs with ⟨a, rfl⟩ | rfl
  · exact ⟨a, rfl, h⟩
  · exact absurd h jsLt_nan_left

theorem jsSqrt_num_of_nonneg {a : ℝ} (h : 0 ≤ a) :
    JsNum.sqrt (JsNum.num a) = JsNum.num (Real.sqrt a) := by
  simp [JsNum.sqrt, h]

theorem jsAdd_nan_right (s : JsNum) : JsNum.add s JsNum.nan = JsNum.nan := by
  cases s <;> rfl

theorem jsAdd_nan_left (t : JsNum) : JsNum.add JsNum.nan t = JsNum.nan := by
  cases t <;> rfl

theorem jsAdd_num_num (a b : ℝ) :
    JsNum.add (JsNum.num a) (JsNum.num b) = JsNum.num (a + b) := rfl

theorem jsSub_num_num (a b : ℝ) :
    JsNum.sub (JsNum.num a) (JsNum.num b) = JsNum.num (a - b) := rfl

theorem jsGet_num_or_nan (l : List ℝ) (i : ℕ) :
    (∃ x, jsGet l i = JsNum.num x) ∨ jsGet l i = JsNum.nan := by
  unfold jsGet
  cases l.get? i <;> simp

theorem jsGet_of_lt {l : List ℝ} {i : ℕ} (h : i < l.length) :
    jsGet l i = JsNum.num (l.getD i 0) := by
  unfold jsGet
  rw [List.getD_eq_get?]
  cases hh : l.get? i with
  | none => exact absurd hh (by simp [List.get?_eq_none]; omega)
  | some x => simp

theorem jsGet_of_le {l : List ℝ} {i : ℕ} (h : l.length ≤ i) :
    jsGet l i = JsNum.nan := by
  unfold jsGet
  rw [List.get?_eq_none.mpr h]

/-- The loop term `Math.pow(d1[i] - d2[i], 2)` is a real number or
`NaN`. -/
theorem term_num_or_nan (q r : List ℝ) (i : ℕ) :
    (∃ x, JsNum.pow2 (JsNum.sub (jsGet q i) (jsGet r i)) = JsNum.num x) ∨
      JsNum.pow2 (JsNum.sub (jsGet q i) (jsGet r i)) = JsNum.nan := by
  rcases jsGet_num_or_nan q i with ⟨x, hx⟩ | hx <;>
    rcases jsGet_num_or_nan r i with ⟨y, hy⟩ | hy <;>
      simp [hx, hy, JsNum.sub, JsNum.pow2]

/-! ### The distance loop -/

/-- One step of the summation loop of `euclideanDistance`. -/
noncomputable def sumStep (d1 d2 : List ℝ) (sum : JsNum) (i : ℕ) : JsNum :=
  JsNum.add sum (JsNum.pow2 (JsNum.sub (jsGet d1 i) (jsGet d2 i)))

theorem euclideanDistance_eq_sumStep (d1 d2 : List ℝ) :
    euclideanDistance d1 d2 =
      JsNum.sqrt ((List.range d1.length).foldl (sumStep d1 d2) (JsNum.num 0)) :=
  rfl

theorem foldl_sumStep_num_or_nan (d1 d2 : List ℝ) (l : List ℕ) :
    ∀ s : JsNum, ((∃ c, s = JsNum.num c) ∨ s = JsNum.nan) →
      (∃ c, l.foldl (sumStep d1 d2) s = JsNum.num c) ∨
        l.foldl (sumStep d1 d2) s = JsNum.nan := by
  induction l with
  | nil => intro s hs; simpa using hs
  | cons i t ih =>
    intro s hs
    apply ih
    rcases hs with ⟨c, rfl⟩ | rfl
    · rcases term_num_or_nan d1 d2 i with ⟨x, hx⟩ | hx
      · exact Or.inl ⟨c + x, by simp [sumStep, hx, jsAdd_num_num]⟩
      · exact Or.inr (by simp [sumStep, hx, jsAdd_nan_right])
    · exact Or.inr (by simp [sumStep, jsAdd_nan_left])

/-- The code's distance is always a nonnegative real or `NaN` (never an
infinity). -/
theorem euclid_shape (q r : List ℝ) :
    (∃ v, euclideanDistance q r = JsNum.num v ∧ 0 ≤ v) ∨
      euclideanDistance q r = JsNum.nan := by
  rw [euclideanDistance_eq_sumStep]
  rcases foldl_sumStep_num_or_nan q r (List.range q.length) (JsNum.num 0)
      (Or.inl ⟨0, rfl⟩) with ⟨c, hc⟩ | hc
  · rw [hc]
    by_cases h0 : 0 ≤ c
    · exact Or.inl ⟨Real.sqrt c, by simp [JsNum.sqrt, h0], Real.sqrt_nonneg c⟩
    · exact Or.inr (by simp [JsNum.sqrt, h0])
  · rw [hc]
    exact Or.inr rfl

theorem foldl_add_num (g : ℕ → ℝ) :
    ∀ (n : ℕ) (c : ℝ),
      (List.range n).foldl (fun s i => JsNum.add s (JsNum.num (g i))) (JsNum.num c) =
        JsNum.num (c + ∑ i in Finset.range n, g i) := by
  intro n
  induction n with
  | zero => intro c; simp
  | succ m ih =>
    intro c
    rw [List.range_succ, List.foldl_append, ih c]
    simp only [List.foldl_cons, List.foldl_nil, jsAdd_num_num, Finset.sum_range_succ]
    rw [add_assoc]

/-- When the stored vector is at least as long as the query, the code's
distance is the exact real Euclidean distance over the first
`q.length` coordinates. -/
theorem euclid_eq_realEuclid {q r : List ℝ} (h : q.length ≤ r.length) :
    euclideanDistance q r = JsNum.num (realEuclid q r) := by
  rw [euclideanDistance_eq_sumStep]
  have hcong : (List.range q.length).foldl (sumStep q r) (JsNum.num 0) =
      (List.range q.length).foldl
        (fun s i => JsNum.add s (JsNum.num ((q.getD i 0 - r.getD i 0) ^ 2)))
        (JsNum.num 0) := by
    apply List.foldl_ext
    intro s i hi
    rw [List.mem_range] at hi
    rw [sumStep, jsGet_of_lt hi, jsGet_of_lt (lt_of_lt_of_le hi h), jsSub_num_num]
    rfl
  rw [hcong, foldl_add_num, zero_add]
  have hnn : 0 ≤ ∑ i in Finset.range q.length, (q.getD i 0 - r.getD i 0) ^ 2 :=
    Finset.sum_nonneg fun i _ => sq_nonneg _
  rw [jsSqrt_num_of_nonneg hnn]
  rfl

theorem realEuclid_nonneg (q r : List ℝ) : 0 ≤ realEuclid q r :=
  Real.sqrt_nonneg _

theorem realEuclid_self (v : List ℝ) : realEuclid v v = 0 := by
  unfold realEuclid
  simp

/-- A vector is at distance `0` from itself. -/
theorem euclid_self (v : List ℝ) : euclideanDistance v v = JsNum.num 0 := by
  rw [euclid_eq_realEuclid (le_refl _), realEuclid_self]

/-- The distance only reads the first `q.length` coordinates of the
stored vector. -/
theorem euclid_take (q r : List ℝ) :
    euclideanDistance q r = euclideanDistance q (r.take q.length) := by
  rw [euclideanDistance_eq_sumStep, euclideanDistance_eq_sumStep]
  congr 1
  apply List.foldl_ext
  intro s i hi
  rw [List.mem_range] at hi
  have : jsGet (r.take q.length) i = jsGet r i := by
    unfold jsGet
    rw [List.get?_take hi]
  rw [sumStep, sumStep, this]

/-- A query strictly longer than the stored vector reads past the end
of the stored vector, and the whole distance collapses to `NaN`. -/
theorem euclid_nan_of_short {q r : List ℝ} (h : r.length < q.length) :
    euclideanDistance q r = JsNum.nan := by
  rw [euclideanDistance_eq_sumStep]
  have key : ∀ n, r.length < n → ∀ s : JsNum,
      (List.range n).foldl (sumStep q r) s = JsNum.nan := by
    intro n
    induction n with
    | zero => omega
    | succ m ih =>
      intro hm s
      rw [List.range_succ, List.foldl_append]
      rcases Nat.lt_or_ge r.length m with hlt | hge
      · rw [ih hlt s]
        simp [sumStep, jsAdd_nan_left]
      · have hrm : r.length ≤ m := by omega
        simp only [List.foldl_cons, List.foldl_nil]
        rw [sumStep, jsGet_of_le hrm]
        rcases jsGet_num_or_nan q m with ⟨x, hx⟩ | hx <;>
          simp [hx, JsNum.sub, JsNum.pow2, jsAdd_nan_right]
  rw [key q.length h (JsNum.num 0)]
  rfl

/-! ### Lemmas about the recognize scan -/

theorem scan_name_some (q : List ℝ) :
    ∀ (db : FaceDB) (b : BestMatch) (n : String), b.name = some n →
      ∃ n', (db.foldl (scanStep q) b).name = some n' := by
  intro db
  induction db with
  | nil => intro b n h; exact ⟨n, h⟩
  | cons e t ih =>
    intro b n h
    rw [List.foldl_cons]
    by_cases hc : JsNum.lt (euclideanDistance q e.descriptor) (JsNum.num threshold) ∧
        JsNum.lt (euclideanDistance q e.descriptor) b.distance
    · rw [scanStep, if_pos hc]
      exact ih _ e.name rfl
    · rw [scanStep, if_neg hc]
      exact ih b n h

/-- Accepted distances are automatically below `Infinity`: for a real
or `NaN` distance, `d < 0.6` already implies `d < Infinity`. -/
theorem accepted_lt_inf {x : JsNum}
    (hs : (∃ a, x = JsNum.num a) ∨ x = JsNum.nan)
    (h : JsNum.lt x (JsNum.num threshold)) : JsNum.lt x JsNum.inf := by
  obtain ⟨a, rfl, _⟩ := jsLt_num_of_lt hs h
  exact jsLt_num_inf

theorem scan_none_iff (q : List ℝ) :
    ∀ db : FaceDB,
      ((recognizeScan db q).name = none ↔
        ∀ e ∈ db, ¬ JsNum.lt (euclideanDistance q e.descriptor) (JsNum.num threshold)) := by
  intro db
  unfold recognizeScan
  induction db with
  | nil => simp
  | cons e t ih =>
    rw [List.foldl_cons]
    by_cases hpos : JsNum.lt (euclideanDistance q e.descriptor) (JsNum.num threshold)
    · have hc : JsNum.lt (euclideanDistance q e.descriptor) (JsNum.num threshold) ∧
          JsNum.lt (euclideanDistance q e.descriptor)
            (BestMatch.mk none JsNum.inf).distance :=
        ⟨hpos, accepted_lt_inf (by
          rcases euclid_shape q e.descriptor with ⟨v, hv, _⟩ | hv
          · exact Or.inl ⟨v, hv⟩
          · exact Or.inr hv) hpos⟩
      rw [scanStep, if_pos hc]
      obtain ⟨n', hn'⟩ := scan_name_some q t ⟨some e.name, _⟩ e.name rfl
      constructor
      · intro h
        rw [hn'] at h
        exact absurd h (by simp)
      · intro h
        exact absurd hpos (h e (List.mem_cons_self e t))
    · have hc : ¬ (JsNum.lt (euclideanDistance q e.descriptor) (JsNum.num threshold) ∧
          JsNum.lt (euclideanDistance q e.descriptor)
            (BestMatch.mk none JsNum.inf).distance) := fun h => hpos h.1
      rw [scanStep, if_neg hc]
      rw [ih]
      constructor
      · intro h e' he'
        rcases List.mem_cons.mp he' with rfl | he'
        · exact hpos
        · exact h e' he'
      · intro h e' he'
        exact h e' (List.mem_cons_of_mem e he')

theorem scan_no_improve (q : List ℝ) :
    ∀ (db : FaceDB) (b : BestMatch),
      (∀ e ∈ db, ¬ (JsNum.lt (euclideanDistance q e.descriptor) (JsNum.num threshold) ∧
        JsNum.lt (euclideanDistance q e.descriptor) b.distance)) →
      db.foldl (scanStep q) b = b := by
  intro db
  induction db with
  | nil => intro b _; rfl
  | cons e t ih =>
    intro b h
    rw [List.foldl_cons, scanStep, if_neg (h e (List.mem_cons_self e t))]
    exact ih b fun e' he' => h e' (List.mem_cons_of_mem e he')

theorem scan_dist_upper (q : List ℝ) :
    ∀ (db : FaceDB) (b : BestMatch) (r₀ : ℝ),
      (b.distance = JsNum.inf ∨ ∃ s, b.distance = JsNum.num s) →
      ((∃ e ∈ db, euclideanDistance q e.descriptor = JsNum.num r₀ ∧ r₀ < threshold) ∨
        (∃ s, b.distance = JsNum.num s ∧ s ≤ r₀)) →
      ∃ m, (db.foldl (scanStep q) b).distance = JsNum.num m ∧ m ≤ r₀ := by
  intro db
  induction db with
  | nil =>
    intro b r₀ _ hd
    rcases hd with ⟨e, he, _⟩ | ⟨s, hs, hsr⟩
    · exact absurd he (List.not_mem_nil e)
    · exact ⟨s, hs, hsr⟩
  | cons e t ih =>
    intro b r₀ hshape hd
    rw [List.foldl_cons]
    rcases hd with ⟨e₀, he₀, hde₀, hr₀⟩ | ⟨s, hs, hsr⟩
    · rcases List.mem_cons.mp he₀ with rfl | he₀t
      · -- the witness is the head record
        rcases hshape with hbinf | ⟨s, hbs⟩
        · have hc : JsNum.lt (euclideanDistance q e₀.descriptor) (JsNum.num threshold) ∧
              JsNum.lt (euclideanDistance q e₀.descriptor) b.distance := by
            rw [hde₀, hbinf]
            exact ⟨jsLt_num_num.mpr hr₀, jsLt_num_inf⟩
          rw [scanStep, if_pos hc]
          exact ih _ r₀ (Or.inr ⟨r₀, hde₀⟩) (Or.inr ⟨r₀, hde₀, le_refl r₀⟩)
        · by_cases hlt : r₀ < s
          · have hc : JsNum.lt (euclideanDistance q e₀.descriptor) (JsNum.num threshold) ∧
                JsNum.lt (euclideanDistance q e₀.descriptor) b.distance := by
              rw [hde₀, hbs]
              exact ⟨jsLt_num_num.mpr hr₀, jsLt_num_num.mpr hlt⟩
            rw [scanStep, if_pos hc]
            exact ih _ r₀ (Or.inr ⟨r₀, hde₀⟩) (Or.inr ⟨r₀, hde₀, le_refl r₀⟩)
          · have hc : ¬ (JsNum.lt (euclideanDistance q e₀.descriptor) (JsNum.num threshold) ∧
                JsNum.lt (euclideanDistance q e₀.descriptor) b.distance) := by
              rw [hde₀, hbs]
              intro h
              exact hlt (jsLt_num_num.mp h.2)
            rw [scanStep, if_neg hc]
            exact ih b r₀ (Or.inr ⟨s, hbs⟩) (Or.inr ⟨s, hbs, le_of_not_lt hlt⟩)
      · -- the witness is in the tail: step arbitrarily, keep the witness
        by_cases hc : JsNum.lt (euclideanDistance q e.descriptor) (JsNum.num threshold) ∧
            JsNum.lt (euclideanDistance q e.descriptor) b.distance
        · rw [scanStep, if_pos hc]
          obtain ⟨u, hu, _⟩ := jsLt_num_of_lt (by
            rcases euclid_shape q e.descriptor with ⟨v, hv, _⟩ | hv
            · exact Or.inl ⟨v, hv⟩
            · exact Or.inr hv) hc.1
          exact ih ⟨some e.name, euclideanDistance q e.descriptor⟩ r₀
            (Or.inr ⟨u, hu⟩) (Or.inl ⟨e₀, he₀t, hde₀, hr₀⟩)
        · rw [scanStep, if_neg hc]
          exact ih b r₀ hshape (Or.inl ⟨e₀, he₀t, hde₀, hr₀⟩)
    · -- the accumulator is already at most r₀
      by_cases hc : JsNum.lt (euclideanDistance q e.descriptor) (JsNum.num threshold) ∧
          JsNum.lt (euclideanDistance q e.descriptor) b.distance
      · rw [scanStep, if_pos hc]
        obtain ⟨u, hu, hus⟩ := @jsLt_num_of_lt (euclideanDistance q e.descriptor) s
          (by
            rcases euclid_shape q e.descriptor with ⟨v, hv, _⟩ | hv
            · exact Or.inl ⟨v, hv⟩
            · exact Or.inr hv)
          (by rw [hs] at hc; exact hc.2)
        exact ih ⟨some e.name, euclideanDistance q e.descriptor⟩ r₀
          (Or.inr ⟨u, hu⟩) (Or.inr ⟨u, hu, le_trans (le_of_lt hus) hsr⟩)
      · rw [scanStep, if_neg hc]
        exact ih b r₀ (Or.inr ⟨s, hs⟩) (Or.inr ⟨s, hs, hsr⟩)

theorem scan_dist_lower (q : List ℝ) :
    ∀ (db : FaceDB) (b : BestMatch) (c : ℝ),
      (b.distance = JsNum.inf ∨ ∃ s, b.distance = JsNum.num s ∧ c ≤ s) →
      (∀ e ∈ db, ∀ u, euclideanDistance q e.descriptor = JsNum.num u → c ≤ u) →
      ((db.foldl (scanStep q) b).distance = JsNum.inf ∨
        ∃ s, (db.foldl (scanStep q) b).distance = JsNum.num s ∧ c ≤ s) := by
  intro db
  induction db with
  | nil => intro b c hb _; exact hb
  | cons e t ih =>
    intro b c hb h
    rw [List.foldl_cons]
    by_cases hc : JsNum.lt (euclideanDistance q e.descriptor) (JsNum.num threshold) ∧
        JsNum.lt (euclideanDistance q e.descriptor) b.distance
    · rw [scanStep, if_pos hc]
      obtain ⟨u, hu, _⟩ := jsLt_num_of_lt (by
        rcases euclid_shape q e.descriptor with ⟨v, hv, _⟩ | hv
        · exact Or.inl ⟨v, hv⟩
        · exact Or.inr hv) hc.1
      exact ih _ c (Or.inr ⟨u, hu, h e (List.mem_cons_self e t) u hu⟩)
        fun e' he' => h e' (List.mem_cons_of_mem e he')
    · rw [scanStep, if_neg hc]
      exact ih b c hb fun e' he' => h e' (List.mem_cons_of_mem e he')

/-- Invariant of the scan: the running best is either still the
initial `{ name: null, distance: Infinity }`, or carries a real
distance in `[0, threshold)`. -/
theorem scan_invariant (q : List ℝ) :
    ∀ (db : FaceDB) (b : BestMatch),
      ((b.name = none ∧ b.distance = JsNum.inf) ∨
        (∃ n m, b.name = some n ∧ b.distance = JsNum.num m ∧ 0 ≤ m ∧ m < threshold)) →
      (((db.foldl (scanStep q) b).name = none ∧
          (db.foldl (scanStep q) b).distance = JsNum.inf) ∨
        (∃ n m, (db.foldl (scanStep q) b).name = some n ∧
          (db.foldl (scanStep q) b).distance = JsNum.num m ∧ 0 ≤ m ∧ m < threshold)) := by
  intro db
  induction db with
  | nil => intro b hb; exact hb
  | cons e t ih =>
    intro b hb
    rw [List.foldl_cons]
    by_cases hc : JsNum.lt (euclideanDistance q e.descriptor) (JsNum.num threshold) ∧
        JsNum.lt (euclideanDistance q e.descriptor) b.distance
    · rw [scanStep, if_pos hc]
      rcases euclid_shape q e.descriptor with ⟨v, hv, hv0⟩ | hv
      · exact ih _ (Or.inr ⟨e.name, v, rfl, hv,
          hv0, by rw [hv] at hc; exact jsLt_num_num.mp hc.1⟩)
      · rw [hv] at hc
        exact absurd hc.1 jsLt_nan_left
    · rw [scanStep, if_neg hc]
      exact ih b hb

/-- The scan returns the first record attaining the minimal accepted
distance: if record `i` is at (real) distance `m < threshold`, no
record is strictly closer, and every record before `i` is strictly
farther, then the final best match is record `i` at distance `m`. -/
theorem scan_first_min (q : List ℝ) :
    ∀ (db : FaceDB) (b : BestMatch) (i : ℕ) (hi : i < db.length) (m : ℝ),
      (b.distance = JsNum.inf ∨ ∃ s, b.distance = JsNum.num s ∧ m < s) →
      euclideanDistance q (db.get ⟨i, hi⟩).descriptor = JsNum.num m →
      m < threshold →
      (∀ (k : ℕ) (hk : k < db.length) (u : ℝ),
        euclideanDistance q (db.get ⟨k, hk⟩).descriptor = JsNum.num u → m ≤ u) →
      (∀ (k : ℕ) (hk : k < i) (u : ℝ),
        euclideanDistance q (db.get ⟨k, lt_trans hk hi⟩).descriptor = JsNum.num u →
          m < u) →
      db.foldl (scanStep q) b = ⟨some (db.get ⟨i, hi⟩).name, JsNum.num m⟩ := by
  intro db
  induction db with
  | nil => intro b i hi; exact absurd hi (Nat.not_lt_zero i)
  | cons e t ih =>
    intro b i hi m hb hdi hm hmin hfirst
    rw [List.foldl_cons]
    cases i with
    | zero =>
      have hde : euclideanDistance q e.descriptor = JsNum.num m := hdi
      have hc : JsNum.lt (euclideanDistance q e.descriptor) (JsNum.num threshold) ∧
          JsNum.lt (euclideanDistance q e.descriptor) b.distance := by
        rw [hde]
        refine ⟨jsLt_num_num.mpr hm, ?_⟩
        rcases hb with hbinf | ⟨s, hbs, hms⟩
        · rw [hbinf]; exact jsLt_num_inf
        · rw [hbs]; exact jsLt_num_num.mpr hms
      rw [scanStep, if_pos hc, hde]
      have : t.foldl (scanStep q) ⟨some e.name, JsNum.num m⟩ =
          ⟨some e.name, JsNum.num m⟩ := by
        apply scan_no_improve
        intro e' he' hcontra
        obtain ⟨u, hu, hum⟩ := jsLt_num_of_lt (by
          rcases euclid_shape q e'.descriptor with ⟨v, hv, _⟩ | hv
          · exact Or.inl ⟨v, hv⟩
          · exact Or.inr hv) hcontra.2
        obtain ⟨⟨k, hk⟩, hke⟩ := List.mem_iff_get.mp he'
        have := hmin (k + 1) (Nat.succ_lt_succ hk) u (by
          show euclideanDistance q (t.get ⟨k, hk⟩).descriptor = JsNum.num u
          rw [hke]; exact hu)
        exact absurd hum (not_lt.mpr this)
      rw [this]
      rfl
    | succ j =>
      have hj : j < t.length := Nat.lt_of_succ_lt_succ hi
      have hrec : ∀ b' : BestMatch,
          (b'.distance = JsNum.inf ∨ ∃ s, b'.distance = JsNum.num s ∧ m < s) →
          t.foldl (scanStep q) b' = ⟨some (t.get ⟨j, hj⟩).name, JsNum.num m⟩ := by
        intro b' hb'
        exact ih b' j hj m hb' hdi hm
          (fun k hk u hu => hmin (k + 1) (Nat.succ_lt_succ hk) u hu)
          (fun k hk u hu => hfirst (k + 1) (Nat.succ_lt_succ hk) u hu)
      by_cases hc : JsNum.lt (euclideanDistance q e.descriptor) (JsNum.num threshold) ∧
          JsNum.lt (euclideanDistance q e.descriptor) b.distance
      · rw [scanStep, if_pos hc]
        obtain ⟨u, hu, _⟩ := jsLt_num_of_lt (by
          rcases euclid_shape q e.descriptor with ⟨v, hv, _⟩ | hv
          · exact Or.inl ⟨v, hv⟩
          · exact Or.inr hv) hc.1
        have hmu : m < u := hfirst 0 (Nat.succ_pos j) u hu
        exact hrec _ (Or.inr ⟨u, hu, hmu⟩)
      · rw [scanStep, if_neg hc]
        exact hrec b hb

/-! ### The minimum distance over the store -/

theorem foldl_min_le_init (xs : List ℝ) : ∀ x : ℝ, xs.foldl min x ≤ x := by
  induction xs with
  | nil => intro x; exact le_refl x
  | cons a t ih =>
    intro x
    rw [List.foldl_cons]
    exact le_trans (ih (min x a)) (min_le_left x a)

theorem foldl_min_le_mem (xs : List ℝ) :
    ∀ (x a : ℝ), a ∈ xs → xs.foldl min x ≤ a := by
  induction xs with
  | nil => intro x a ha; exact absurd ha (List.not_mem_nil a)
  | cons b t ih =>
    intro x a ha
    rw [List.foldl_cons]
    rcases List.mem_cons.mp ha with rfl | hat
    · exact le_trans (foldl_min_le_init t (min x a)) (min_le_right x a)
    · exact ih (min x b) a hat

theorem foldl_min_mem (xs : List ℝ) :
    ∀ x : ℝ, xs.foldl min x = x ∨ xs.foldl min x ∈ xs := by
  induction xs with
  | nil => intro x; exact Or.inl rfl
  | cons a t ih =>
    intro x
    rw [List.foldl_cons]
    rcases ih (min x a) with h | h
    · rcases min_choice x a with hx | hx
      · exact Or.inl (h.trans hx)
      · exact Or.inr (by rw [h, hx]; exact List.mem_cons_self a t)
    · exact Or.inr (List.mem_cons_of_mem a h)

theorem minDist_eq_none_iff (db : FaceDB) (q : List ℝ) :
    minDist db q = none ↔ db = [] := by
  cases db <;> simp [minDist]

theorem minDist_of_ne_nil {db : FaceDB} (q : List ℝ) (h : db ≠ []) :
    ∃ m, minDist db q = some m := by
  cases db with
  | nil => exact absurd rfl h
  | cons e t => exact ⟨_, rfl⟩

theorem minDist_le {db : FaceDB} {q : List ℝ} {m : ℝ}
    (h : minDist db q = some m) {e : FaceEntry} (he : e ∈ db) :
    m ≤ realEuclid q e.descriptor := by
  cases db with
  | nil => exact absurd he (List.not_mem_nil e)
  | cons e₀ t =>
    have hm : m = (t.map fun e' => realEuclid q e'.descriptor).foldl min
        (realEuclid q e₀.descriptor) := by
      have := h
      unfold minDist at this
      simp only [List.map_cons] at this
      exact (Option.some.inj this).symm
    rcases List.mem_cons.mp he with rfl | het
    · rw [hm]; exact foldl_min_le_init _ _
    · rw [hm]
      exact foldl_min_le_mem _ _ _ (List.mem_map_of_mem _ het)

theorem minDist_mem {db : FaceDB} {q : List ℝ} {m : ℝ}
    (h : minDist db q = some m) :
    ∃ e ∈ db, realEuclid q e.descriptor = m := by
  cases db with
  | nil => exact absurd h (by simp [minDist])
  | cons e₀ t =>
    have hm : m = (t.map fun e' => realEuclid q e'.descriptor).foldl min
        (realEuclid q e₀.descriptor) := by
      have := h
      unfold minDist at this
      simp only [List.map_cons] at this
      exact (Option.some.inj this).symm
    rcases foldl_min_mem (t.map fun e' => realEuclid q e'.descriptor)
        (realEuclid q e₀.descriptor) with hh | hh
    · exact ⟨e₀, List.mem_cons_self e₀ t, by rw [hm, hh]⟩
    · obtain ⟨e', he', hee⟩ := List.mem_map.mp hh
      exact ⟨e', List.mem_cons_of_mem e₀ he', by rw [hm, hee]⟩

/-! ### Lemmas about registration -/

theorem registerFace_none_name (db : FaceDB) (c₂ : Option (List ℝ)) :
    registerFace db none c₂ = (db, RegisterResult.invalidInput) := by
  cases c₂ <;> rfl

theorem registerFace_none_descriptor (db : FaceDB) (c₁ : Option String) :
    registerFace db c₁ none = (db, RegisterResult.invalidInput) := by
  cases c₁ <;> rfl

theorem registerFace_empty_name (db : FaceDB) (d : List ℝ) :
    registerFace db (some "") (some d) = (db, RegisterResult.invalidInput) := by
  rfl

theorem registerFace_some_some (db : FaceDB) (n : String) (d : List ℝ) :
    registerFace db (some n) (some d) =
      if n = "" then (db, RegisterResult.invalidInput)
      else if db.any fun e => e.name == n then (db, RegisterResult.duplicateIdentity)
      else (db ++ [FaceEntry.mk n d],
        RegisterResult.ok (db ++ [FaceEntry.mk n d]).length) := rfl

theorem registerFace_dup {db : FaceDB} {n : String} (d : List ℝ) (hn : n ≠ "")
    (hdup : ∃ e ∈ db, e.name = n) :
    registerFace db (some n) (some d) = (db, RegisterResult.duplicateIdentity) := by
  rw [registerFace_some_some, if_neg hn, if_pos]
  rw [List.any_eq_true]
  obtain ⟨e, he, hen⟩ := hdup
  exact ⟨e, he, by simp [hen]⟩

theorem registerFace_fresh {db : FaceDB} {n : String} (d : List ℝ) (hn : n ≠ "")
    (hfresh : ∀ e ∈ db, e.name ≠ n) :
    registerFace db (some n) (some d) =
      (db ++ [FaceEntry.mk n d], RegisterResult.ok (db.length + 1)) := by
  rw [registerFace_some_some, if_neg hn, if_neg]
  · simp
  · rw [List.any_eq_true]
    rintro ⟨e, he, hen⟩
    exact hfresh e he (by simpa using hen)

theorem register_preserves_nodup (db : FaceDB) (c₁ : Option String)
    (c₂ : Option (List ℝ)) (h : (db.map FaceEntry.name).Nodup) :
    (((registerFace db c₁ c₂).1).map FaceEntry.name).Nodup := by
  cases c₁ with
  | none => rw [registerFace_none_name]; exact h
  | some n =>
    cases c₂ with
    | none => rw [registerFace_none_descriptor]; exact h
    | some d =>
      by_cases hn : n = ""
      · subst hn; rw [registerFace_empty_name]; exact h
      · by_cases hdup : ∃ e ∈ db, e.name = n
        · rw [registerFace_dup d hn hdup]; exact h
        · push_neg at hdup
          rw [registerFace_fresh d hn hdup]
          simp only [List.map_append, List.map_cons, List.map_nil]
          rw [List.nodup_append]
          refine ⟨h, List.nodup_singleton n, ?_⟩
          intro x hx hx'
          simp only [List.mem_singleton] at hx'
          subst hx'
          obtain ⟨e, he, hen⟩ := List.mem_map.mp hx
          exact hdup e he hen

theorem runRegister_nodup (calls : List (Option String × Option (List ℝ))) :
    ((runRegister calls).map FaceEntry.name).Nodup := by
  have aux : ∀ (cs : List (Option String × Option (List ℝ))) (db : FaceDB),
      (db.map FaceEntry.name).Nodup →
      (((cs.foldl (fun db' c => (registerFace db' c.1 c.2).1) db)).map
        FaceEntry.name).Nodup := by
    intro cs
    induction cs with
    | nil => intro db h; exact h
    | cons c t ih =>
      intro db h
      rw [List.foldl_cons]
      exact ih _ (register_preserves_nodup db c.1 c.2 h)
  exact aux calls [] (by simp)

/-! ### The recognize handler -/

theorem threshold_pos : (0 : ℝ) < threshold := by
  unfold threshold
  norm_num

theorem threshold_ne_zero : (threshold : ℝ) ≠ 0 :=
  ne_of_gt threshold_pos

theorem jsDiv_num_num (a b : ℝ) :
    JsNum.div (JsNum.num a) (JsNum.num b) =
      if b = 0 then (if a = 0 then JsNum.nan else if 0 < a then JsNum.inf else JsNum.negInf)
      else JsNum.num (a / b) := rfl

theorem jsConfidence_num (m : ℝ) :
    jsConfidence (JsNum.num m) = JsNum.num (1 - m / threshold) := by
  unfold jsConfidence
  rw [jsDiv_num_num, if_neg threshold_ne_zero]
  rfl

theorem recognizeScan_eq (db : FaceDB) (d : List ℝ) :
    recognizeScan db d = db.foldl (scanStep d) ⟨none, JsNum.inf⟩ := rfl

theorem recognizeFace_none (db : FaceDB) :
    recognizeFace db none = (db, RecognizeResult.invalidInput) := rfl

theorem recognizeFace_some (db : FaceDB) (d : List ℝ) :
    recognizeFace db (some d) =
      (db, match (recognizeScan db d).name with
        | some n =>
            RecognizeResult.recognized n (jsConfidence (recognizeScan db d).distance)
        | none => RecognizeResult.noMatch) := by
  unfold recognizeFace
  cases hscan : recognizeScan db d with
  | mk name dist => cases name <;> simp [hscan]

theorem recognizeFace_of_name_none {db : FaceDB} {d : List ℝ}
    (h : (recognizeScan db d).name = none) :
    (recognizeFace db (some d)).2 = RecognizeResult.noMatch := by
  rw [recognizeFace_some, h]

theorem recognizeFace_of_name_some {db : FaceDB} {d : List ℝ} {n : String}
    (h : (recognizeScan db d).name = some n) :
    (recognizeFace db (some d)).2 =
      RecognizeResult.recognized n (jsConfidence (recognizeScan db d).distance) := by
  rw [recognizeFace_some, h]

theorem recognized_iff_name_some (db : FaceDB) (d : List ℝ) :
    (∃ n c, (recognizeFace db (some d)).2 = RecognizeResult.recognized n c) ↔
      (recognizeScan db d).name ≠ none := by
  constructor
  · rintro ⟨n, c, hnc⟩ hname
    rw [recognizeFace_of_name_none hname] at hnc
    exact absurd hnc (by simp)
  · intro hname
    cases hs : (recognizeScan db d).name with
    | none => exact absurd hs hname
    | some n =>
      exact ⟨n, _, recognizeFace_of_name_some hs⟩

/-! ### The claims -/

/-- C1 (counterexample): the server performs NO dimension check.
Registering the label `"Alice"` with the 1-element embedding `[0]`
(length `1 ≠ D = 128`) does not fail with `InvalidInput`: it succeeds
with count `1` and appends a record to the store. -/
theorem C1_counterexample :
    ([(0:ℝ)].length ≠ D) ∧
    registerFace [] (some "Alice") (some [(0:ℝ)]) =
      ([FaceEntry.mk "Alice" [(0:ℝ)]], RegisterResult.ok 1) ∧
    (registerFace [] (some "Alice") (some [(0:ℝ)])).2 ≠
      RegisterResult.invalidInput := by
  have h := @registerFace_fresh [] "Alice" [(0:ℝ)]
    (by decide) (fun e he => absurd he (List.not_mem_nil e))
  refine ⟨by norm_num [D], ?_, ?_⟩
  · simpa using h
  · rw [h]
    simp

/-- C1 (amended): there is no dimension guard.  A register call whose
embedding has length ≠ D still succeeds (appending the record) whenever
the label is a nonempty fresh string, and an identify call with an
embedding of length ≠ D never fails with `InvalidInput`; `InvalidInput`
arises only from a missing/empty label or a missing descriptor. -/
theorem C1_theorem (db : FaceDB) (n : String) (d : List ℝ) (hlen : d.length ≠ D) :
    (n ≠ "" → (∀ e ∈ db, e.name ≠ n) →
      registerFace db (some n) (some d) =
        (db ++ [FaceEntry.mk n d], RegisterResult.ok (db.length + 1))) ∧
    (recognizeFace db (some d)).2 ≠ RecognizeResult.invalidInput := by
  constructor
  · intro hn hfresh
    exact registerFace_fresh d hn hfresh
  · rw [recognizeFace_some]
    cases (recognizeScan db d).name <;> simp

/-- C1 (witness): the amended statement at the concrete wrong-length
input `[0]`. -/
theorem C1_witness :
    ([(0:ℝ)].length ≠ D) ∧
    registerFace [] (some "A") (some [(0:ℝ)]) =
      ([FaceEntry.mk "A" [(0:ℝ)]], RegisterResult.ok 1) ∧
    (recognizeFace [] (some [(0:ℝ)])).2 ≠ RecognizeResult.invalidInput := by
  have h := C1_theorem [] "A" [(0:ℝ)] (by norm_num [D])
  refine ⟨by norm_num [D], ?_, h.2⟩
  simpa using h.1 (by decide) (fun e he => absurd he (List.not_mem_nil e))

/-- C2: registration with a fresh (nonempty) label appends exactly one
record and returns the new count; registration with an already-present
label (case-sensitive exact match) fails with `DuplicateIdentity` and
returns the store completely unchanged; and after any sequence of
register calls starting from the empty store, no two records share a
label. -/
theorem C2_theorem :
    (∀ (db : FaceDB) (n : String) (d : List ℝ), n ≠ "" →
      ((∀ e ∈ db, e.name ≠ n) →
        registerFace db (some n) (some d) =
          (db ++ [FaceEntry.mk n d], RegisterResult.ok (db.length + 1))) ∧
      ((∃ e ∈ db, e.name = n) →
        registerFace db (some n) (some d) = (db, RegisterResult.duplicateIdentity))) ∧
    (∀ calls : List (Option String × Option (List ℝ)),
      ((runRegister calls).map FaceEntry.name).Nodup) :=
  ⟨fun _ _ d hn => ⟨fun hf => registerFace_fresh d hn hf,
    fun hd => registerFace_dup d hn hd⟩,
   runRegister_nodup⟩

/-- C2 (witness): a fresh registration of `"A"` succeeds with count 1;
re-registering `"A"` yields `DuplicateIdentity` with the store (and the
original embedding) untouched. -/
theorem C2_witness :
    registerFace [] (some "A") (some [(1:ℝ)]) =
      ([FaceEntry.mk "A" [(1:ℝ)]], RegisterResult.ok 1) ∧
    registerFace [FaceEntry.mk "A" [(1:ℝ)]] (some "A") (some [(2:ℝ)]) =
      ([FaceEntry.mk "A" [(1:ℝ)]], RegisterResult.duplicateIdentity) := by
  have h1 := (C2_theorem.1 [] "A" [(1:ℝ)] (by decide)).1
    (fun e he => absurd he (List.not_mem_nil e))
  have h2 := (C2_theorem.1 [FaceEntry.mk "A" [(1:ℝ)]] "A" [(2:ℝ)] (by decide)).2
    ⟨FaceEntry.mk "A" [(1:ℝ)], List.mem_singleton_self _, rfl⟩
  exact ⟨by simpa using h1, h2⟩

/-- C6 (counterexample): the server does NOT trim the label.  The
whitespace-only label `" "` is truthy in JavaScript, so registering it
does not fail with `InvalidInput`: it succeeds and appends a record. -/
theorem C6_counterexample :
    registerFace [] (some " ") (some [(1:ℝ)]) =
      ([FaceEntry.mk " " [(1:ℝ)]], RegisterResult.ok 1) ∧
    (registerFace [] (some " ") (some [(1:ℝ)])).2 ≠
      RegisterResult.invalidInput := by
  have h := @registerFace_fresh [] " " [(1:ℝ)]
    (by decide) (fun e he => absurd he (List.not_mem_nil e))
  refine ⟨by simpa using h, ?_⟩
  rw [h]
  simp

/-- C6 (amended): register fails with `InvalidInput` (and adds no
record) exactly when the label is missing or is the empty string; the
label is not trimmed, so a whitespace-only label such as `" "` is
accepted and registered when fresh. -/
theorem C6_theorem (db : FaceDB) :
    (∀ d : Option (List ℝ),
      registerFace db none d = (db, RegisterResult.invalidInput)) ∧
    (∀ d : List ℝ,
      registerFace db (some "") (some d) = (db, RegisterResult.invalidInput)) ∧
    (∀ d : List ℝ, (∀ e ∈ db, e.name ≠ " ") →
      registerFace db (some " ") (some d) =
        (db ++ [FaceEntry.mk " " d], RegisterResult.ok (db.length + 1))) :=
  ⟨fun d => registerFace_none_name db d,
   fun _ => registerFace_empty_name db _,
   fun d hf => registerFace_fresh d (by decide) hf⟩

/-- C6 (witness): the amended statement at concrete inputs on the empty
store. -/
theorem C6_witness :
    registerFace [] none (some [(1:ℝ)]) = ([], RegisterResult.invalidInput) ∧
    registerFace [] (some "") (some [(1:ℝ)]) = ([], RegisterResult.invalidInput) ∧
    registerFace [] (some " ") (some [(1:ℝ)]) =
      ([FaceEntry.mk " " [(1:ℝ)]], RegisterResult.ok 1) := by
  refine ⟨(C6_theorem []).1 _, (C6_theorem []).2.1 _, ?_⟩
  simpa using (C6_theorem []).2.2 [(1:ℝ)] (fun e he => absurd he (List.not_mem_nil e))

/-- C7: for length-`D` vectors the distance computed by the server's
`euclideanDistance` loop is exactly the Euclidean distance
`sqrt(Σ_i (q_i - r_i)^2)` over all `D` dimensions (the spec-side
formula `specEuclideanDistance`). -/
theorem C7_theorem (q r : List ℝ) (hq : q.length = D) (hr : r.length = D) :
    euclideanDistance q r = JsNum.num (specEuclideanDistance q r) := by
  rw [euclid_eq_realEuclid (le_of_eq (hq.trans hr.symm))]
  unfold realEuclid specEuclideanDistance
  rw [hq]

/-- C7 (witness): the refinement at two concrete 128-dimensional
vectors. -/
theorem C7_witness :
    euclideanDistance (List.replicate 128 (0:ℝ)) (List.replicate 128 (1:ℝ)) =
      JsNum.num (specEuclideanDistance
        (List.replicate 128 (0:ℝ)) (List.replicate 128 (1:ℝ))) :=
  C7_theorem _ _ (by simp [D]) (by simp [D])

/-- C9: the recognize handler never mutates the store: for every input
(absent descriptor, accepted match, or no match) the store after the
call is the store before the call. -/
theorem C9_theorem (db : FaceDB) (d : Option (List ℝ)) :
    (recognizeFace db d).1 = db := by
  cases d with
  | none => rfl
  | some d => rw [recognizeFace_some]

/-- C10: the distance loop iterates over exactly the length of its
first argument (the query).  Consequently (i) the stored embedding's
coordinates beyond the query's length never contribute — the distance
is unchanged when the stored vector is truncated to the query's
length — and (ii) a query strictly longer than the stored embedding
indexes the stored embedding past its end (`undefined`), collapsing
the whole distance to `NaN`. -/
theorem C10_theorem :
    (∀ q r : List ℝ, euclideanDistance q r = euclideanDistance q (r.take q.length)) ∧
    (∀ q r : List ℝ, r.length < q.length → euclideanDistance q r = JsNum.nan) :=
  ⟨euclid_take, fun _ _ h => euclid_nan_of_short h⟩

/-- C10 (witness): a 2-element query against a 1-element stored vector
yields `NaN`. -/
theorem C10_witness :
    euclideanDistance [(0:ℝ), 0] [(3:ℝ)] = JsNum.nan :=
  C10_theorem.2 [(0:ℝ), 0] [(3:ℝ)] (by simp)

/-- C3: with valid dimensions everywhere, `identify` reports a match
exactly when the store is non-empty and the minimum Euclidean distance
over all records is strictly below the threshold; on an empty store, or
when the minimum distance is ≥ the threshold (including exact
equality), it reports no-match rather than an error. -/
theorem C3_theorem (db : FaceDB) (q : List ℝ) (hq : q.length = D)
    (hdb : ∀ e ∈ db, e.descriptor.length = D) :
    ((∃ n c, (recognizeFace db (some q)).2 = RecognizeResult.recognized n c) ↔
      ∃ m, minDist db q = some m ∧ m < threshold) ∧
    ((db = [] ∨ ∃ m, minDist db q = some m ∧ threshold ≤ m) →
      (recognizeFace db (some q)).2 = RecognizeResult.noMatch) := by
  have hdim : ∀ e ∈ db, euclideanDistance q e.descriptor =
      JsNum.num (realEuclid q e.descriptor) := fun e he =>
    euclid_eq_realEuclid (by rw [hq, hdb e he])
  have hacc : ∀ e ∈ db,
      (JsNum.lt (euclideanDistance q e.descriptor) (JsNum.num threshold) ↔
        realEuclid q e.descriptor < threshold) := by
    intro e he
    rw [hdim e he]
    exact jsLt_num_num
  have hname : (recognizeScan db q).name ≠ none ↔
      ∃ e ∈ db, realEuclid q e.descriptor < threshold := by
    rw [ne_eq, scan_none_iff q db]
    push_neg
    constructor
    · rintro ⟨e, he, hlt⟩
      exact ⟨e, he, (hacc e he).mp hlt⟩
    · rintro ⟨e, he, hlt⟩
      exact ⟨e, he, (hacc e he).mpr hlt⟩
  constructor
  · rw [recognized_iff_name_some, hname]
    constructor
    · rintro ⟨e, he, hlt⟩
      have hne : db ≠ [] := by
        intro hnil
        subst hnil
        exact absurd he (List.not_mem_nil e)
      obtain ⟨m, hm⟩ := minDist_of_ne_nil q hne
      exact ⟨m, hm, lt_of_le_of_lt (minDist_le hm he) hlt⟩
    · rintro ⟨m, hm, hmθ⟩
      obtain ⟨e, he, hre⟩ := minDist_mem hm
      exact ⟨e, he, by rw [hre]; exact hmθ⟩
  · rintro (rfl | ⟨m, hm, hθm⟩)
    · exact recognizeFace_of_name_none rfl
    · cases hs : (recognizeScan db q).name with
      | none => exact recognizeFace_of_name_none hs
      | some n =>
        exfalso
        obtain ⟨e, he, hlt⟩ := hname.mp (by rw [hs]; simp)
        exact absurd hlt (not_lt.mpr (le_trans hθm (minDist_le hm he)))

/-- C3 (witness): on the empty store a 128-dimensional query yields
no-match without an error. -/
theorem C3_witness :
    (recognizeFace [] (some (List.replicate 128 (0:ℝ)))).2 =
      RecognizeResult.noMatch :=
  (C3_theorem [] (List.replicate 128 (0:ℝ)) (by simp [D]) (by simp)).2 (Or.inl rfl)

/-- C4: identifying with the exact embedding of any registered record
is accepted with best-match distance `0` and reported confidence
`1` (`1 - 0/0.6`). -/
theorem C4_theorem (db : FaceDB) (r : FaceEntry) (hr : r ∈ db) :
    ∃ n, (recognizeFace db (some r.descriptor)).2 =
        RecognizeResult.recognized n (JsNum.num 1) ∧
      (recognizeScan db r.descriptor).distance = JsNum.num 0 := by
  have hdr : euclideanDistance r.descriptor r.descriptor = JsNum.num 0 :=
    euclid_self _
  have hname : (recognizeScan db r.descriptor).name ≠ none := by
    rw [ne_eq, scan_none_iff r.descriptor db]
    push_neg
    exact ⟨r, hr, by rw [hdr]; exact jsLt_num_num.mpr threshold_pos⟩
  obtain ⟨m, hm, hm0⟩ := scan_dist_upper r.descriptor db ⟨none, JsNum.inf⟩ 0
    (Or.inl rfl) (Or.inl ⟨r, hr, hdr, threshold_pos⟩)
  have hlower := scan_dist_lower r.descriptor db ⟨none, JsNum.inf⟩ 0
    (Or.inl rfl)
    (fun e he u hu => by
      rcases euclid_shape r.descriptor e.descriptor with ⟨v, hv, hv0⟩ | hv
      · have huv := hu.symm.trans hv
        injection huv with huv
        rw [huv]
        exact hv0
      · exact absurd (hu.symm.trans hv) (by simp))
  have hdist0 : (recognizeScan db r.descriptor).distance = JsNum.num 0 := by
    rcases hlower with hinf | ⟨s, hs, hs0⟩
    · exact absurd ((hm.symm.trans hinf : JsNum.num m = JsNum.inf)) (by simp)
    · have hsm : s = m := by
        have := hs.symm.trans hm
        injection this
      have hmz : m = 0 := le_antisymm hm0 (by rw [← hsm]; exact hs0)
      rw [recognizeScan_eq, hm, hmz]
  cases hs : (recognizeScan db r.descriptor).name with
  | none => exact absurd hs hname
  | some n =>
    refine ⟨n, ?_, hdist0⟩
    rw [recognizeFace_of_name_some hs, hdist0, jsConfidence_num]
    norm_num

/-- C4 (witness): the concrete single-record store at its own
embedding. -/
theorem C4_witness :
    ∃ n, (recognizeFace [FaceEntry.mk "A" [(0:ℝ)]]
        (some (FaceEntry.mk "A" [(0:ℝ)]).descriptor)).2 =
        RecognizeResult.recognized n (JsNum.num 1) ∧
      (recognizeScan [FaceEntry.mk "A" [(0:ℝ)]]
        (FaceEntry.mk "A" [(0:ℝ)]).descriptor).distance = JsNum.num 0 :=
  C4_theorem _ _ (List.mem_singleton_self _)

/-- C5: when records `i < j` are at the same (real) distance `m` from
the query, `m` is accepted, no record is strictly closer, and every
record before `i` is strictly farther, the match goes to record `i` —
the record registered earlier.  The embedding is a pure function of
the store and the query, so the outcome is deterministic. -/
theorem C5_theorem (db : FaceDB) (q : List ℝ) (i j : ℕ)
    (hi : i < db.length) (hij : i < j) (hj : j < db.length) (m : ℝ)
    (hdi : euclideanDistance q (db.get ⟨i, hi⟩).descriptor = JsNum.num m)
    (hdj : euclideanDistance q (db.get ⟨j, hj⟩).descriptor = JsNum.num m)
    (hacc : m < threshold)
    (hmin : ∀ (k : ℕ) (hk : k < db.length) (u : ℝ),
      euclideanDistance q (db.get ⟨k, hk⟩).descriptor = JsNum.num u → m ≤ u)
    (hfirst : ∀ (k : ℕ) (hk : k < i) (u : ℝ),
      euclideanDistance q (db.get ⟨k, lt_trans hk hi⟩).descriptor = JsNum.num u →
        m < u) :
    (recognizeFace db (some q)).2 =
      RecognizeResult.recognized (db.get ⟨i, hi⟩).name (jsConfidence (JsNum.num m)) := by
  have hscan : recognizeScan db q = ⟨some (db.get ⟨i, hi⟩).name, JsNum.num m⟩ :=
    scan_first_min q db ⟨none, JsNum.inf⟩ i hi m (Or.inl rfl) hdi hacc hmin hfirst
  have hname : (recognizeScan db q).name = some (db.get ⟨i, hi⟩).name := by
    rw [hscan]
  rw [recognizeFace_of_name_some hname, hscan]

/-- C5 (witness): two records both at distance 0 from the query; the
earlier record `"A"` wins. -/
theorem C5_witness :
    (recognizeFace [FaceEntry.mk "A" [(0:ℝ)], FaceEntry.mk "B" [(0:ℝ)]]
        (some [(0:ℝ)])).2 =
      RecognizeResult.recognized "A" (jsConfidence (JsNum.num 0)) := by
  have h := C5_theorem [FaceEntry.mk "A" [(0:ℝ)], FaceEntry.mk "B" [(0:ℝ)]]
    [(0:ℝ)] 0 1 (by simp) (by norm_num) (by simp) 0
    (euclid_self _) (euclid_self _) threshold_pos
    (fun k hk u hu => by
      have hk2 : k < 2 := by simpa using hk
      have h0 : euclideanDistance [(0:ℝ)]
          (([FaceEntry.mk "A" [(0:ℝ)], FaceEntry.mk "B" [(0:ℝ)]].get ⟨k, hk⟩).descriptor) =
          JsNum.num 0 := by
        interval_cases k
        · exact euclid_self _
        · exact euclid_self _
      rw [hu] at h0
      injection h0 with h0
      exact le_of_eq h0.symm)
    (fun k hk u _ => absurd hk (Nat.not_lt_zero k))
  exact h

/-- Concrete evaluation of the recognize handler on a one-record store
queried with that record's own embedding. -/
theorem recognize_single_eval :
    (recognizeFace [FaceEntry.mk "A" [(0:ℝ)]] (some [(0:ℝ)])).2 =
      RecognizeResult.recognized "A" (JsNum.num 1) := by
  have hd : euclideanDistance [(0:ℝ)] (FaceEntry.mk "A" [(0:ℝ)]).descriptor =
      JsNum.num 0 := euclid_self _
  have hcond : JsNum.lt (euclideanDistance [(0:ℝ)] (FaceEntry.mk "A" [(0:ℝ)]).descriptor)
        (JsNum.num threshold) ∧
      JsNum.lt (euclideanDistance [(0:ℝ)] (FaceEntry.mk "A" [(0:ℝ)]).descriptor)
        (BestMatch.mk none JsNum.inf).distance := by
    rw [hd]
    exact ⟨jsLt_num_num.mpr threshold_pos, jsLt_num_inf⟩
  have hscan : recognizeScan [FaceEntry.mk "A" [(0:ℝ)]] [(0:ℝ)] =
      ⟨some "A", JsNum.num 0⟩ := by
    unfold recognizeScan
    rw [List.foldl_cons, List.foldl_nil, scanStep, if_pos hcond, hd]
  have hname : (recognizeScan [FaceEntry.mk "A" [(0:ℝ)]] [(0:ℝ)]).name = some "A" := by
    rw [hscan]
  rw [recognizeFace_of_name_some hname, hscan, jsConfidence_num]
  norm_num

/-- C8: whenever the recognize handler accepts a match, the reported
confidence is `1 - (minDistance / threshold)`, which on the accepted
range `0 ≤ minDistance < threshold` coincides with its clamp to
`[0, 1]`; the formula is strictly decreasing in the distance, equals
`1` at distance `0` and `0` at distance exactly `threshold`; and (with
valid dimensions) the best-match distance is exactly the minimum
distance over the store. -/
theorem C8_theorem (db : FaceDB) (q : List ℝ) (n : String) (c : JsNum)
    (h : (recognizeFace db (some q)).2 = RecognizeResult.recognized n c) :
    (∃ m, (recognizeScan db q).distance = JsNum.num m ∧ 0 ≤ m ∧ m < threshold ∧
      c = JsNum.num (max 0 (min 1 (1 - m / threshold))) ∧
      max 0 (min 1 (1 - m / threshold)) = 1 - m / threshold) ∧
    (∀ m₁ m₂ : ℝ, m₁ < m₂ → 1 - m₂ / threshold < 1 - m₁ / threshold) ∧
    (1 - (0:ℝ) / threshold = 1) ∧
    (1 - threshold / threshold = 0) ∧
    (q.length = D → (∀ e ∈ db, e.descriptor.length = D) →
      ∀ m, (recognizeScan db q).distance = JsNum.num m → minDist db q = some m) := by
  cases hs : (recognizeScan db q).name with
  | none =>
    rw [recognizeFace_of_name_none hs] at h
    exact absurd h (by simp)
  | some n' =>
    rw [recognizeFace_of_name_some hs] at h
    have hc : c = jsConfidence (recognizeScan db q).distance := by
      injection h with h1 h2
      exact h2.symm
    have hinv := scan_invariant q db ⟨none, JsNum.inf⟩ (Or.inl ⟨rfl, rfl⟩)
    rcases hinv with ⟨hnone, _⟩ | ⟨n2, m, _, hm, hm0, hmθ⟩
    · exact absurd (hs.symm.trans hnone) (by simp)
    · refine ⟨⟨m, hm, hm0, hmθ, ?_, ?_⟩, ?_, by simp, ?_, ?_⟩
      · have hcol : max 0 (min 1 (1 - m / threshold)) = 1 - m / threshold := by
          have h1 : m / threshold < 1 := (div_lt_one threshold_pos).mpr hmθ
          have h2 : 0 ≤ m / threshold := div_nonneg hm0 (le_of_lt threshold_pos)
          rw [min_eq_right (by linarith), max_eq_right (by linarith)]
        rw [hc, recognizeScan_eq, hm, jsConfidence_num, hcol]
      · have h1 : m / threshold < 1 := (div_lt_one threshold_pos).mpr hmθ
        have h2 : 0 ≤ m / threshold := div_nonneg hm0 (le_of_lt threshold_pos)
        rw [min_eq_right (by linarith), max_eq_right (by linarith)]
      · intro m₁ m₂ h12
        have hp := threshold_pos
        have hpos : 0 < (m₂ - m₁) / threshold := div_pos (by linarith) hp
        have hsub : (m₂ - m₁) / threshold = m₂ / threshold - m₁ / threshold :=
          sub_div _ _ _
        linarith
      · rw [div_self threshold_ne_zero]
        ring
      · intro hq hdb m' hm'
        have hdim : ∀ e ∈ db, euclideanDistance q e.descriptor =
            JsNum.num (realEuclid q e.descriptor) := fun e he =>
          euclid_eq_realEuclid (by rw [hq, hdb e he])
        have hex : ∃ e ∈ db, JsNum.lt (euclideanDistance q e.descriptor)
            (JsNum.num threshold) := by
          by_contra hall
          push_neg at hall
          have hnone := (scan_none_iff q db).mpr hall
          exact absurd (hs.symm.trans hnone) (by simp)
        obtain ⟨e, he, hlt⟩ := hex
        have hre : realEuclid q e.descriptor < threshold := by
          rw [hdim e he] at hlt
          exact jsLt_num_num.mp hlt
        have hne : db ≠ [] := by
          intro hnil
          subst hnil
          exact absurd he (List.not_mem_nil e)
        obtain ⟨μ, hμ⟩ := minDist_of_ne_nil q hne
        have hμθ : μ < threshold := lt_of_le_of_lt (minDist_le hμ he) hre
        obtain ⟨e₀, he₀, hre₀⟩ := minDist_mem hμ
        obtain ⟨m2, hm2, hm2mu⟩ := scan_dist_upper q db ⟨none, JsNum.inf⟩ μ
          (Or.inl rfl) (Or.inl ⟨e₀, he₀, by rw [hdim e₀ he₀, hre₀], hμθ⟩)
        have hlow := scan_dist_lower q db ⟨none, JsNum.inf⟩ μ (Or.inl rfl)
          (fun e' he' u hu => by
            have hh := (hdim e' he').symm.trans hu
            injection hh with hh
            rw [← hh]
            exact minDist_le hμ he')
        have hmm2 : m' = m2 := by
          have hh := hm'.symm.trans hm2
          injection hh
        rcases hlow with hinf | ⟨s, hsdist, hμs⟩
        · exact absurd (hm'.symm.trans hinf) (by simp)
        · have hsm : s = m' := by
            have hh := hsdist.symm.trans hm'
            injection hh
          have hmμ : m' = μ :=
            le_antisymm (by rw [hmm2]; exact hm2mu) (by rw [← hsm]; exact hμs)
          rw [hmμ]
          exact hμ

/-- C8 (witness): on the concrete accepted self-match (distance `0`,
confidence `1`) the clamp is the identity and the reported confidence
matches the clamped formula. -/
theorem C8_witness :
    ∃ m, (recognizeScan [FaceEntry.mk "A" [(0:ℝ)]] [(0:ℝ)]).distance = JsNum.num m ∧
      0 ≤ m ∧ m < threshold ∧
      (JsNum.num 1 : JsNum) = JsNum.num (max 0 (min 1 (1 - m / threshold))) ∧
      max 0 (min 1 (1 - m / threshold)) = 1 - m / threshold :=
  (C8_theorem [FaceEntry.mk "A" [(0:ℝ)]] [(0:ℝ)] "A" (JsNum.num 1)
    recognize_single_eval).1

end FaceDetect
